import Mathlib

/-!
Shallow embedding of the PyALTO network-topology and cost-computation core:
the CORE topology model (`corenetdata.py`), the kernel and router-CLI
routing-table parsers and the interface-address parser (`nethelpers.py`),
and the residual-bandwidth cost provider (`pathloadcostprovider.py`).

Python-level conventions used throughout the embedding:
* a Python function that can raise is embedded as `Except PyErr _`;
* Python `None` becomes `Option.none`;
* Python dicts that the code only iterates/looks up become association
  lists in insertion order (`List (k × v)`), with `List.lookup` as `d[k]`
  lookup and `dictInsert` as `d[k] = v` assignment;
* Python machine-independent `int` becomes `Int` (no overflow in Python).
-/

/-- Python exception values that can arise in the embedded code. -/
inductive PyErr where
  /-- `ValueError` (bad `int()` literal, unpacking mismatch, `min([])`). -/
  | valueError : PyErr
  /-- `IndexError` (sequence index out of range). -/
  | indexError : PyErr
  /-- `NameError` (reading a local variable that was never assigned). -/
  | nameError : PyErr
  /-- `binascii.Error` (odd-length or non-hex string in `unhexlify`). -/
  | binasciiError : PyErr
  /-- `NotImplementedError` (the CLI parser's unrecognized-shape raise). -/
  | notImplementedError : PyErr
  /-- `KeyError` (missing dict key, e.g. `path[0]` on an empty path). -/
  | keyError : PyErr
  deriving DecidableEq, Repr

instance {ε α : Type} [DecidableEq ε] [DecidableEq α] :
    DecidableEq (Except ε α)
  | .ok a, .ok b =>
    if h : a = b then .isTrue (by rw [h])
    else .isFalse (by intro hh; cases hh; exact h rfl)
  | .ok _, .error _ => .isFalse (by intro hh; cases hh)
  | .error _, .ok _ => .isFalse (by intro hh; cases hh)
  | .error e, .error f =>
    if h : e = f then .isTrue (by rw [h])
    else .isFalse (by intro hh; cases hh; exact h rfl)

/-- `Except.isOk`: did the computation finish without a Python exception? -/
def isOkE {ε α : Type} : Except ε α → Bool
  | .ok _ => true
  | .error _ => false

/-- Python string indexing `s[i]` for a nonnegative index: returns the
character or raises `IndexError`. -/
def pyStrGet (s : String) (i : Nat) : Except PyErr Char :=
  match s.data.get? i with
  | some c => .ok c
  | none => .error .indexError

/-- Python list indexing `xs[i]` with an `Int` index: negative indices wrap
from the end (`xs[-1]` is the last element); out of range raises
`IndexError`. -/
def pyIdx {α : Type} (xs : List α) (i : Int) : Except PyErr α :=
  if 0 ≤ i then
    match xs.get? i.toNat with
    | some v => .ok v
    | none => .error .indexError
  else
    match xs.get? (xs.length - (-i).toNat) with
    | some v => if (-i).toNat ≤ xs.length then .ok v else .error .indexError
    | none => .error .indexError

/-- Python `s.strip(chars)`: remove the characters of `chars` (as a set)
from both ends of `s`. -/
def pyStrip (chars : List Char) (s : String) : String :=
  String.mk (((s.data.dropWhile (chars.contains ·)).reverse.dropWhile
    (chars.contains ·)).reverse)

/-- Decimal digits to a number, most significant first; `none` on any
non-digit character. -/
def digitsToNat : List Char → Nat → Option Nat
  | [], acc => some acc
  | c :: rest, acc =>
    if c.isDigit then digitsToNat rest (acc * 10 + (c.toNat - '0'.toNat))
    else none

/-- Python `int(s)`: parse a (possibly sign-prefixed) nonempty decimal
literal, or raise `ValueError`. -/
def pyInt (s : String) : Except PyErr Int :=
  match s.data with
  | [] => .error .valueError
  | '-' :: rest =>
    match rest, digitsToNat rest 0 with
    | _ :: _, some n => .ok (-(n : Int))
    | _, _ => .error .valueError
  | '+' :: rest =>
    match rest, digitsToNat rest 0 with
    | _ :: _, some n => .ok (n : Int)
    | _, _ => .error .valueError
  | cs =>
    match digitsToNat cs 0 with
    | some n => .ok (n : Int)
    | none => .error .valueError

/-- Accumulator loop for `pySplit`: cut the character list at every
occurrence of `sep`. -/
def pySplitGo (sep : Char) : List Char → List Char → List String
  | [], acc => [String.mk acc.reverse]
  | c :: rest, acc =>
    if c = sep then String.mk acc.reverse :: pySplitGo sep rest []
    else pySplitGo sep rest (c :: acc)

/-- Python `s.split(sep)` for a single-character separator: split at every
occurrence, keeping empty fields (so `"a  b".split(' ') = ['a', '', 'b']`
and `"".split(' ') = ['']`). -/
def pySplit (sep : Char) (s : String) : List String :=
  pySplitGo sep s.data []

/-- Python dict assignment `d[k] = v` on an insertion-ordered association
list: replace the value in place if the key exists, else append. -/
def dictInsert {κ ν : Type} [DecidableEq κ] (d : List (κ × ν)) (key : κ)
    (val : ν) : List (κ × ν) :=
  if d.any (fun kv => kv.1 = key) then
    d.map (fun kv => if kv.1 = key then (key, val) else kv)
  else
    d ++ [(key, val)]

/-- Python `any(d)` on a dict of string keys: `True` iff some key is truthy,
i.e. some key is a nonempty string. -/
def pyAnyDict {ν : Type} (d : List (String × ν)) : Bool :=
  d.any (fun kv => kv.1 ≠ "")

/-- Python dict lookup `d.get(k)` on an insertion-ordered association
list. -/
def dictLookup {κ ν : Type} [DecidableEq κ] (k : κ) : List (κ × ν) → Option ν
  | [] => none
  | (k', v) :: rest => if k = k' then some v else dictLookup k rest

section DictLemmas

variable {κ ν : Type} [DecidableEq κ]

theorem dictLookup_map_replace (key k : κ) (val : ν) (h : k ≠ key)
    (d : List (κ × ν)) :
    dictLookup k (d.map (fun kv => if kv.1 = key then (key, val) else kv)) =
      dictLookup k d := by
  induction d with
  | nil => rfl
  | cons hd tl ih =>
    by_cases hk : hd.1 = key
    · rw [List.map_cons, if_pos hk]
      show dictLookup k ((key, val) :: _) = dictLookup k (hd :: tl)
      rw [show hd = (hd.1, hd.2) from rfl, hk]
      simp only [dictLookup, if_neg h, ih]
    · rw [List.map_cons, if_neg hk]
      rw [show hd = (hd.1, hd.2) from rfl]
      simp only [dictLookup, ih]

theorem dictLookup_append_single_ne (key k : κ) (val : ν) (h : k ≠ key)
    (d : List (κ × ν)) :
    dictLookup k (d ++ [(key, val)]) = dictLookup k d := by
  induction d with
  | nil => simp [dictLookup, if_neg h]
  | cons hd tl ih =>
    rw [List.cons_append, show hd = (hd.1, hd.2) from rfl]
    simp only [dictLookup, ih]

theorem dictInsert_dictLookup_ne (d : List (κ × ν)) (key k : κ) (val : ν)
    (h : k ≠ key) : dictLookup k (dictInsert d key val) = dictLookup k d := by
  unfold dictInsert
  by_cases hmem : d.any (fun kv => kv.1 = key)
  · rw [if_pos hmem]
    exact dictLookup_map_replace key k val h d
  · rw [if_neg hmem]
    exact dictLookup_append_single_ne key k val h d

end DictLemmas

/-! ## Topology model: `corenetdata.py` (`CoreNetData`) -/

/-- The state of a `CoreNetData` instance.  `bridges` embeds `_bridges`
(`{bridge_name: [global_a, global_b]}`) and `mappings` embeds `_mappings`
(`{hostname: [[global, local], ...]}`), both as insertion-ordered
association lists. -/
structure CoreNetData where
  bridges : List (String × String × String)
  mappings : List (String × List (String × String))
  valid : Bool := false
  deriving DecidableEq, Repr

/-- Loop body of `CoreNetData._get_peer_adapter`: iterate over the bridge
values `(peer_a, peer_b)` in insertion order; return the opposite member of
the first pair containing `glob`. -/
def get_peer_adapter_go : List (String × String × String) → String → Option String
  | [], _ => none
  | (_, peer_a, peer_b) :: rest, glob =>
    if peer_a = glob then some peer_b
    else if peer_b = glob then some peer_a
    else get_peer_adapter_go rest glob

/-- `CoreNetData._get_peer_adapter`: given a global adapter name, find the
other end of its point-to-point bridge, returning the global name. -/
def CoreNetData.get_peer_adapter (nd : CoreNetData) (glob_adapter : String) :
    Option String :=
  get_peer_adapter_go nd.bridges glob_adapter

/-- `CoreNetData.get_nodes_local_name`: given node and global adapter name,
return the first matching local adapter name in that node's adapter list. -/
def CoreNetData.get_nodes_local_name (nd : CoreNetData)
    (node_name adapter_name : String) : Option String :=
  match dictLookup node_name nd.mappings with
  | none => none
  | some node_adapters =>
    (node_adapters.find? (fun p => p.1 = adapter_name)).map (fun p => p.2)

/-- `CoreNetData._get_device_from_globname`: scan all devices' adapter lists
in order for the global adapter name, returning `(hostname, local_name)` of
the first match. -/
def get_device_from_globname_go (in_globname : String) :
    List (String × List (String × String)) → Option (String × String)
  | [] => none
  | (hostname, adapters) :: rest =>
    match adapters.find? (fun p => p.1 = in_globname) with
    | some p => some (hostname, p.2)
    | none => get_device_from_globname_go in_globname rest

/-- `CoreNetData._get_device_from_globname` on a `CoreNetData` state. -/
def CoreNetData.get_device_from_globname (nd : CoreNetData)
    (in_globname : String) : Option (String × String) :=
  get_device_from_globname_go in_globname nd.mappings

/-- Loop body of `CoreNetData.get_adapter_names`: iterate over the source
device's adapters; for the first one whose bridge peer resolves to a device
equal to `dst_device`, return the connecting pair.  The source's
`if remote_hostname is None: continue` guard is unreachable in the embedding
(hostnames are strings, never `None`).  The second local name is re-resolved
with `get_nodes_local_name` and so is an `Option` in the source as well. -/
def get_adapter_names_go (nd : CoreNetData) (dst_device : String) :
    List (String × String) → Option ((String × String) × (String × Option String))
  | [] => none
  | (glob_name, loc_name) :: rest =>
    match nd.get_peer_adapter glob_name with
    | none => get_adapter_names_go nd dst_device rest
    | some remote_global =>
      match nd.get_device_from_globname remote_global with
      | none => get_adapter_names_go nd dst_device rest
      | some (remote_hostname, _) =>
        if remote_hostname ≠ dst_device then get_adapter_names_go nd dst_device rest
        else some ((glob_name, loc_name),
          (remote_global, nd.get_nodes_local_name remote_hostname remote_global))

/-- `CoreNetData.get_adapter_names`: adapter names connecting `src_device`
with `dst_device`, or `None`. -/
def CoreNetData.get_adapter_names (nd : CoreNetData)
    (src_device dst_device : String) :
    Option ((String × String) × (String × Option String)) :=
  match dictLookup src_device nd.mappings with
  | none => none
  | some src_node_adapters => get_adapter_names_go nd dst_device src_node_adapters

/-- The check performed by `CoreNetData._validate`: every bridge has a
truthy adapter name (`any(adapters)`) and both of its global adapter names
resolve to an owning device.  The source function only logs an error and
returns early when the check fails — it raises nothing and returns `None`
either way; this Bool records whether it would log an error (false = an
error is logged for some bridge). -/
def CoreNetData.validate_ok (nd : CoreNetData) : Bool :=
  nd.bridges.all (fun b =>
    (b.2.1 ≠ "" || b.2.2 ≠ "") &&
    (nd.get_device_from_globname b.2.1).isSome &&
    (nd.get_device_from_globname b.2.2).isSome)

/-- The parsed topology description file (`{"links": ..., "names": ...}`). -/
structure TopoData where
  links : List (String × String × String)
  names : List (String × List (String × String))
  deriving DecidableEq, Repr

/-- `CoreNetData.load_data`: store `data['links']` and `data['names']`,
call `self._validate()` — whose result is `None` and whose only effect is
logging, so it cannot alter control flow — and then set `self.valid = True`
unconditionally. -/
def CoreNetData.load_data (data : TopoData) : CoreNetData :=
  { bridges := data.links, mappings := data.names, valid := true }

/-- All global adapter endpoint names mentioned by the links, in order. -/
def bridgeEndpoints (l : List (String × String × String)) : List String :=
  l.flatMap (fun b => [b.2.1, b.2.2])

theorem get_peer_adapter_go_mem (l : List (String × String × String))
    (hu : (bridgeEndpoints l).Nodup) :
    ∀ b ∈ l, get_peer_adapter_go l b.2.1 = some b.2.2 ∧
      get_peer_adapter_go l b.2.2 = some b.2.1 := by
  induction l with
  | nil => intro b hb; cases hb
  | cons hd tl ih =>
    obtain ⟨nm, a, bb⟩ := hd
    simp only [bridgeEndpoints, List.flatMap_cons, List.cons_append,
      List.nil_append] at hu
    rw [List.nodup_cons] at hu
    obtain ⟨ha, hu1⟩ := hu
    rw [List.nodup_cons] at hu1
    obtain ⟨hb, hu2⟩ := hu1
    intro b hbmem
    rcases List.mem_cons.mp hbmem with heq | hbtl
    · subst heq
      constructor
      · simp [get_peer_adapter_go]
      · have hab : a ≠ bb := by
          intro h; exact ha (h ▸ List.mem_cons_self _ _)
        simp [get_peer_adapter_go, hab]
    · have h1 : b.2.1 ∈ bridgeEndpoints tl := by
        unfold bridgeEndpoints
        exact List.mem_flatMap.mpr ⟨b, hbtl, by simp⟩
      have h2 : b.2.2 ∈ bridgeEndpoints tl := by
        unfold bridgeEndpoints
        exact List.mem_flatMap.mpr ⟨b, hbtl, by simp⟩
      have hna1 : a ≠ b.2.1 := by
        intro h; exact ha (h ▸ List.mem_cons_of_mem _ h1)
      have hna2 : a ≠ b.2.2 := by
        intro h; exact ha (h ▸ List.mem_cons_of_mem _ h2)
      have hnb1 : bb ≠ b.2.1 := fun h => hb (h ▸ h1)
      have hnb2 : bb ≠ b.2.2 := fun h => hb (h ▸ h2)
      have := ih hu2 b hbtl
      constructor
      · simpa [get_peer_adapter_go, hna1, hnb1] using this.1
      · simpa [get_peer_adapter_go, hna2, hnb2] using this.2

theorem get_peer_adapter_go_absent (l : List (String × String × String))
    (g : String) (h : ∀ b ∈ l, g ≠ b.2.1 ∧ g ≠ b.2.2) :
    get_peer_adapter_go l g = none := by
  induction l with
  | nil => rfl
  | cons hd tl ih =>
    obtain ⟨nm, a, bb⟩ := hd
    have hhd := h (nm, a, bb) (List.mem_cons_self _ _)
    have h1 : a ≠ g := fun hh => hhd.1 hh.symm
    have h2 : bb ≠ g := fun hh => hhd.2 hh.symm
    simp only [get_peer_adapter_go, if_neg h1, if_neg h2]
    exact ih (fun b hb => h b (List.mem_cons_of_mem _ hb))

/-- C6: in a topology whose global adapter names are unique across all
links, `_get_peer_adapter` maps each link's endpoint to the opposite
endpoint of that link, and returns `None` for a global name appearing in no
link. -/
theorem claim_C6_peer_adapter_symmetry (nd : CoreNetData)
    (hu : (bridgeEndpoints nd.bridges).Nodup) :
    (∀ b ∈ nd.bridges, nd.get_peer_adapter b.2.1 = some b.2.2 ∧
      nd.get_peer_adapter b.2.2 = some b.2.1) ∧
    (∀ g, (∀ b ∈ nd.bridges, g ≠ b.2.1 ∧ g ≠ b.2.2) →
      nd.get_peer_adapter g = none) :=
  ⟨fun b hb => get_peer_adapter_go_mem nd.bridges hu b hb,
   fun g hg => get_peer_adapter_go_absent nd.bridges g hg⟩

/-- Witness for C6 on a concrete two-link topology. -/
theorem claim_C6_witness :
    let nd : CoreNetData :=
      { bridges := [("b1", "gA", "gB"), ("b2", "gC", "gD")],
        mappings := [], valid := false }
    nd.get_peer_adapter "gA" = some "gB" ∧
    nd.get_peer_adapter "gB" = some "gA" ∧
    nd.get_peer_adapter "gX" = none := by
  intro nd
  have h := claim_C6_peer_adapter_symmetry nd (by decide)
  have h1 := h.1 ("b1", "gA", "gB") (by decide)
  have h2 := h.2 "gX" (by decide)
  exact ⟨h1.1, h1.2, h2⟩

/-- C1 (code bug exhibit): loading a topology description whose single link
joins two adapters owned by no device still sets `valid = True`; the check
`_validate` performs fails on this topology, but its result is discarded by
`load_data`. -/
theorem claim_C1_dangling_link_marked_valid :
    (CoreNetData.load_data
      { links := [("b1", "gA", "gB")], names := [] }).valid = true ∧
    (CoreNetData.load_data
      { links := [("b1", "gA", "gB")], names := [] }).validate_ok = false := by
  decide

/-! ## Kernel routing-table parser: `nethelpers.py` (`_parse_rt_line`) -/

/-- The platform's native integer byte order (`sys.byteorder`). -/
inductive ByteOrder where
  | little : ByteOrder
  | big : ByteOrder
  deriving DecidableEq, Repr

/-- Value of one hexadecimal digit, upper or lower case. -/
def hexDigitVal (c : Char) : Option Nat :=
  if '0' ≤ c ∧ c ≤ '9' then some (c.toNat - '0'.toNat)
  else if 'a' ≤ c ∧ c ≤ 'f' then some (c.toNat - 'a'.toNat + 10)
  else if 'A' ≤ c ∧ c ≤ 'F' then some (c.toNat - 'A'.toNat + 10)
  else none

/-- `binascii.unhexlify`: decode a hex string into its byte values; fails on
an odd-length string or a non-hex character. -/
def unhexlify : List Char → Option (List Nat)
  | [] => some []
  | [_] => none
  | c1 :: c2 :: rest =>
    match hexDigitVal c1, hexDigitVal c2, unhexlify rest with
    | some hi, some lo, some bs => some ((hi * 16 + lo) :: bs)
    | _, _, _ => none

/-- `int.from_bytes(bs, byteorder)` for unsigned bytes. -/
def intFromBytes : ByteOrder → List Nat → Nat
  | .little, bs => bs.foldr (fun b acc => b + 256 * acc) 0
  | .big, bs => bs.foldl (fun acc b => acc * 256 + b) 0

/-- `str(ipaddress.IPv4Address(n))`: dotted-decimal form of a 32-bit
address value. -/
def ipv4DottedStr (n : Nat) : String :=
  toString (n / 16777216 % 256) ++ "." ++ toString (n / 65536 % 256) ++ "." ++
    toString (n / 256 % 256) ++ "." ++ toString (n % 256)

/-- The source idiom
`str(ipaddress.IPv4Address(int.from_bytes(binascii.unhexlify(word), sys.byteorder)))`:
`unhexlify` may raise `binascii.Error`, and `IPv4Address` raises for values
that do not fit in 32 bits. -/
def pyHexAddr (bo : ByteOrder) (word : String) : Except PyErr String :=
  match unhexlify word.data with
  | none => .error .binasciiError
  | some bs =>
    let addr := intFromBytes bo bs
    if addr < 4294967296 then .ok (ipv4DottedStr addr) else .error .valueError

/-- The dict built by `_parse_rt_line`: each column assignment fills one
field; a field is `none` while its key is still missing from the dict. -/
structure RtLine where
  ifname : Option String := none
  destination : Option String := none
  gateway : Option String := none
  flags : Option (List String) := none
  refcnt : Option Int := none
  use : Option Int := none
  metric : Option Int := none
  mask : Option String := none
  mtu : Option Int := none
  window : Option Int := none
  irtt : Option Int := none
  deriving DecidableEq, Repr

/-- One iteration of `_parse_rt_line`'s `for index, word in enumerate(...)`
loop: the `if/elif` chain on `index`.  For `index > 10` the source only
logs `Unexpected number of RT line tokens!` and leaves the dict unchanged. -/
def parse_rt_word (bo : ByteOrder) (index : Nat) (word : String)
    (acc : RtLine) : Except PyErr RtLine :=
  if index = 0 then .ok { acc with ifname := some word }
  else if index = 1 then do
    let a ← pyHexAddr bo word
    .ok { acc with destination := some a }
  else if index = 2 then do
    let a ← pyHexAddr bo word
    .ok { acc with gateway := some a }
  else if index = 3 then do
    let int_flags ← pyInt word
    let fl := (if int_flags.emod 2 = 1 then ["U"] else []) ++
      (if (int_flags.ediv 2).emod 2 = 1 then ["G"] else [])
    .ok { acc with flags := some fl }
  else if index = 4 then do
    let v ← pyInt word
    .ok { acc with refcnt := some v }
  else if index = 5 then do
    let v ← pyInt word
    .ok { acc with use := some v }
  else if index = 6 then do
    let v ← pyInt word
    .ok { acc with metric := some v }
  else if index = 7 then do
    let a ← pyHexAddr bo word
    .ok { acc with mask := some a }
  else if index = 8 then do
    let v ← pyInt word
    .ok { acc with mtu := some v }
  else if index = 9 then do
    let v ← pyInt word
    .ok { acc with window := some v }
  else if index = 10 then do
    let v ← pyInt word
    .ok { acc with irtt := some v }
  else .ok acc

/-- The whole enumeration loop of `_parse_rt_line`, starting at `index`. -/
def parse_rt_tokens (bo : ByteOrder) :
    List String → Nat → RtLine → Except PyErr RtLine
  | [], _, acc => .ok acc
  | word :: rest, index, acc =>
    match parse_rt_word bo index word acc with
    | .error e => .error e
    | .ok acc' => parse_rt_tokens bo rest (index + 1) acc'

/-- `_parse_rt_line`: split the line on tabs and run the enumeration loop. -/
def parse_rt_line (bo : ByteOrder) (str_line : String) : Except PyErr RtLine :=
  parse_rt_tokens bo (pySplit '\t' str_line) 0 {}

theorem parse_rt_word_high (bo : ByteOrder) (i : Nat) (h : 11 ≤ i)
    (w : String) (acc : RtLine) : parse_rt_word bo i w acc = .ok acc := by
  unfold parse_rt_word
  repeat rw [if_neg (show ¬_ = _ by omega)]

theorem parse_rt_tokens_high (bo : ByteOrder) (ts : List String) :
    ∀ (i : Nat), 11 ≤ i → ∀ acc, parse_rt_tokens bo ts i acc = .ok acc := by
  induction ts with
  | nil => intro i _ acc; rfl
  | cons w rest ih =>
    intro i hi acc
    unfold parse_rt_tokens
    rw [parse_rt_word_high bo i hi w acc]
    exact ih (i + 1) (by omega) acc

theorem parse_rt_tokens_take (bo : ByteOrder) (ts : List String) :
    ∀ (i : Nat) (acc : RtLine),
      parse_rt_tokens bo ts i acc =
        parse_rt_tokens bo (ts.take (11 - i)) i acc := by
  induction ts with
  | nil => intro i acc; rw [List.take_nil]
  | cons w rest ih =>
    intro i acc
    by_cases h : 11 ≤ i
    · rw [show 11 - i = 0 from by omega, List.take_zero,
        parse_rt_tokens_high bo _ i h acc]
      rfl
    · rw [show 11 - i = (11 - (i + 1)) + 1 from by omega, List.take_succ_cons]
      show parse_rt_tokens bo (w :: rest) i acc = _
      unfold parse_rt_tokens
      cases parse_rt_word bo i w acc with
      | error e => rfl
      | ok acc' => exact ih (i + 1) acc'

/-- C2 (counterexample): a well-formed line with 12 tab-separated columns is
parsed without any error being raised — the column-count violation is not
fatal to the parse call, contradicting the claim that any line with more
than 11 columns fails. -/
theorem claim_C2_counterexample_twelve_columns_not_fatal :
    ((pySplit '\t'
      "eth0\t0000000A\t00000000\t1\t0\t0\t0\t00FFFFFF\t0\t0\t0\textra").length = 12) ∧
    isOkE (parse_rt_line .little
      "eth0\t0000000A\t00000000\t1\t0\t0\t0\t00FFFFFF\t0\t0\t0\textra") =
      true := by
  constructor
  · decide
  · decide

/-- C2 (amended): the kernel routing-table line parser never fails because
of extra columns: a line parses exactly as its first 11 tab-separated
columns do, so columns past the 11th are ignored (after an error is merely
logged) and no hard parse error is raised for the column-count violation. -/
theorem claim_C2_extra_columns_ignored (bo : ByteOrder) (str_line : String) :
    parse_rt_line bo str_line =
      parse_rt_tokens bo ((pySplit '\t' str_line).take 11) 0 {} := by
  unfold parse_rt_line
  rw [parse_rt_tokens_take bo (pySplit '\t' str_line) 0]

/-! ## Router-CLI routing-table parser: `nethelpers.py` (`_process_quagga_rt`)

The Python loop body shares one function scope across all lines, so the
locals `subnet`, `ad`, `rd`, `gw`, `adapter` keep their values from earlier
iterations unless reassigned; reading one that was never assigned raises
`NameError`.  `QState` therefore carries both the explicit caches
(`last_proto`, `last_subnet`, `last_ad`, `last_rd`) and those residual
locals (`v_*`, where `none` means "never assigned so far"). -/

/-- Mutable state of `_process_quagga_rt` carried across data lines. -/
structure QState where
  last_proto : Option String := none
  last_subnet : Option String := none
  last_ad : Option Int := none
  last_rd : Option Int := none
  v_subnet : Option (Option String) := none
  v_ad : Option (Option Int) := none
  v_rd : Option (Option Int) := none
  v_gw : Option (Option String) := none
  v_adapter : Option String := none
  deriving DecidableEq, Repr

/-- The per-line record dict appended to `out` (`Int` key named `intf`). -/
structure QRec where
  protocol : Option String
  selected : Bool
  fib : Bool
  subnet : Option String
  ad : Option Int
  rd : Option Int
  gw : Option String
  intf : String
  deriving DecidableEq, Repr

/-- Python `(a, b) = xs`: unpack a list of exactly two values or raise
`ValueError`. -/
def pyUnpack2 (xs : List String) : Except PyErr (String × String) :=
  match xs with
  | [a, b] => .ok (a, b)
  | _ => .error .valueError

/-- The `proto == 'C'` branch: scan `enumerate(tokens)` for the first
token `is`; `-1` is the subnet, `+3` the adapter; `ad`/`rd`/`gw` are set to
`None` and the loop breaks.  Without an `is` token the loop falls through
and no variable is assigned. -/
def find_is_c (full : List String) (s : QState) :
    List String → Nat → Except PyErr QState
  | [], _ => .ok s
  | token :: rest, num =>
    if token = "is" then do
      let subnet ← pyIdx full ((num : Int) - 1)
      let adapter ← pyIdx full ((num : Int) + 3)
      .ok { s with
            v_subnet := some (some subnet)
            last_subnet := some subnet
            v_adapter := some adapter
            v_ad := some none
            v_rd := some none
            v_gw := some none }
    else find_is_c full s rest (num + 1)

/-- The `'via' in tokens` branch: at the first token `via`, either reuse
the cached subnet/AD/RD (continuation) or parse `tokens[num-2]` as subnet
and `tokens[num-1]` as bracketed `AD/RD` and cache them; then take the
gateway and interface from `+1` and `+2` (commas stripped) and break. -/
def find_via (full : List String) (cached : Bool) (s : QState) :
    List String → Nat → Except PyErr QState
  | [], _ => .ok s
  | token :: rest, num =>
    if token = "via" then do
      let s1 ←
        if cached then
          .ok { s with
                v_subnet := some s.last_subnet
                v_ad := some s.last_ad
                v_rd := some s.last_rd }
        else do
          let subnet ← pyIdx full ((num : Int) - 2)
          let adrd ← pyIdx full ((num : Int) - 1)
          let (adS, rdS) ← pyUnpack2 (pySplit '/' (pyStrip ['[', ']'] adrd))
          let ad ← pyInt adS
          let rd ← pyInt rdS
          .ok { s with
                v_subnet := some (some subnet)
                last_subnet := some subnet
                v_ad := some (some ad)
                last_ad := some ad
                v_rd := some (some rd)
                last_rd := some rd }
      let gw ← pyIdx full ((num : Int) + 1)
      let adapter ← pyIdx full ((num : Int) + 2)
      .ok { s1 with
            v_gw := some (some (pyStrip [','] gw))
            v_adapter := some (pyStrip [','] adapter) }
    else find_via full cached s rest (num + 1)

/-- The `'is' in tokens` routed branch: for every token `is` (this loop has
no `break`), parse subnet (`-2`) and bracketed AD/RD (`-1`), cache them,
set no gateway and take the interface from `+3` (comma stripped). -/
def find_is_routed (full : List String) :
    QState → List String → Nat → Except PyErr QState
  | s, [], _ => .ok s
  | s, token :: rest, num =>
    if token = "is" then do
      let subnet ← pyIdx full ((num : Int) - 2)
      let adrd ← pyIdx full ((num : Int) - 1)
      let (adS, rdS) ← pyUnpack2 (pySplit '/' (pyStrip ['[', ']'] adrd))
      let ad ← pyInt adS
      let rd ← pyInt rdS
      let adapter ← pyIdx full ((num : Int) + 3)
      find_is_routed full
        { s with
          v_subnet := some (some subnet)
          last_subnet := some subnet
          v_ad := some (some ad)
          last_ad := some ad
          v_rd := some (some rd)
          last_rd := some rd
          v_gw := some none
          v_adapter := some (pyStrip [','] adapter) }
        rest (num + 1)
    else find_is_routed full s rest (num + 1)

/-- One iteration of the `for lineno, line in enumerate(in_lines)` loop of
`_process_quagga_rt` on a data line: protocol-code / continuation handling,
`>` and `*` flags, branch dispatch, and the `out.append` of the record
(raising `NameError` if a referenced local was never assigned). -/
def quagga_step (s : QState) (line : String) :
    Except PyErr (QState × QRec) := do
  let c0 ← pyStrGet line 0
  let proto := if c0 = ' ' then s.last_proto else some (String.mk [c0])
  let s1 :=
    if c0 = ' ' then s
    else { s with
           last_proto := some (String.mk [c0])
           last_subnet := none
           last_ad := none
           last_rd := none }
  let cached := c0 = ' '
  let c1 ← pyStrGet line 1
  let selected := c1 = '>'
  let c2 ← pyStrGet line 2
  let fib := c2 = '*'
  let tokens := pySplit ' ' line
  let s2 ←
    if proto = some "C" then find_is_c tokens s1 tokens 0
    else if "via" ∈ tokens then find_via tokens cached s1 tokens 0
    else if "is" ∈ tokens then find_is_routed tokens s1 tokens 0
    else .error .notImplementedError
  match s2.v_subnet, s2.v_ad, s2.v_rd, s2.v_gw, s2.v_adapter with
  | some subnet, some ad, some rd, some gw, some adapter =>
    .ok (s2, { protocol := proto, selected := selected, fib := fib
               subnet := subnet, ad := ad, rd := rd, gw := gw
               intf := adapter })
  | _, _, _, _, _ => .error .nameError

/-- The data-line loop of `_process_quagga_rt`, appending one record per
line; a raised exception aborts the whole call. -/
def process_lines : QState → List QRec → List String → Except PyErr (List QRec)
  | _, out, [] => .ok out
  | s, out, line :: rest =>
    match quagga_step s line with
    | .error e => .error e
    | .ok (s', r) => process_lines s' (out ++ [r]) rest

/-- `_process_quagga_rt`: skip `lineno in [0, 1, 2, 3]` (the four header
lines, equivalently dropping the first four elements) and process every
remaining line in order. -/
def process_quagga_rt (in_lines : List String) : Except PyErr (List QRec) :=
  process_lines {} [] (in_lines.drop 4)

/-- C8: after the four header lines, the CLI data line
`C>* 10.0.0.0/24 is directly connected, eth0` parses to exactly one record
with the directly-connected protocol code, selected and FIB flags set,
subnet `10.0.0.0/24`, interface `eth0`, no gateway, and no AD/RD. -/
theorem claim_C8_connected_route_line_parses :
    process_quagga_rt ["h1", "h2", "h3", "h4",
      "C>* 10.0.0.0/24 is directly connected, eth0"] =
    .ok [{ protocol := some "C", selected := true, fib := true,
           subnet := some "10.0.0.0/24", ad := none, rd := none, gw := none,
           intf := "eth0" }] := by
  decide

/-- C4 (counterexample): the data line `C>* junk here` carries the
directly-connected protocol code but contains neither an `is` nor a `via`
token, so it matches none of the three recognized line shapes; yet the
parser does not fail — it emits a guessed record that reuses the subnet and
interface left over from the previous line. -/
theorem claim_C4_counterexample_c_line_without_anchor_guesses :
    ((pySplit ' ' "C>* junk here").contains "is" = false) ∧
    ((pySplit ' ' "C>* junk here").contains "via" = false) ∧
    process_quagga_rt ["h1", "h2", "h3", "h4",
      "C>* 10.0.0.0/24 is directly connected, eth0",
      "C>* junk here"] =
    .ok [{ protocol := some "C", selected := true, fib := true,
           subnet := some "10.0.0.0/24", ad := none, rd := none, gw := none,
           intf := "eth0" },
         { protocol := some "C", selected := true, fib := true,
           subnet := some "10.0.0.0/24", ad := none, rd := none, gw := none,
           intf := "eth0" }] := by
  decide

/-- C5 (counterexample): a continuation line (leading space) that is
dispatched through the directly-connected branch re-parses its subnet from
the line itself: here it yields subnet `10.0.1.0/24`, different from the
subnet `10.0.0.0/24` of the immediately preceding non-continuation record
with the same protocol code `C`. -/
theorem claim_C5_counterexample_continuation_reparses_subnet :
    process_quagga_rt ["h1", "h2", "h3", "h4",
      "C>* 10.0.0.0/24 is directly connected, eth0",
      " >* 10.0.1.0/24 is directly connected, eth1"] =
    .ok [{ protocol := some "C", selected := true, fib := true,
           subnet := some "10.0.0.0/24", ad := none, rd := none, gw := none,
           intf := "eth0" },
         { protocol := some "C", selected := true, fib := true,
           subnet := some "10.0.1.0/24", ad := none, rd := none, gw := none,
           intf := "eth1" }] ∧
    (some "10.0.1.0/24" : Option String) ≠ some "10.0.0.0/24" := by
  decide

/-- C4 (amended): the unrecognized-shape failure exists, but only for lines
whose effective protocol code is not the directly-connected code `C`: a
data line of length ≥ 3 whose protocol (inherited for continuation lines)
is not `C` and whose tokens contain neither `via` nor `is` raises
`NotImplementedError`, which is fatal to the whole parse call; a
directly-connected line without an `is` token is instead accepted and may
emit a guessed record from leftover values. -/
theorem claim_C4_unanchored_routed_line_raises (s : QState) (line : String)
    (c0 c1 c2 : Char) (cs : List Char)
    (hdata : line.data = c0 :: c1 :: c2 :: cs)
    (hproto : (if c0 = ' ' then s.last_proto else some (String.mk [c0])) ≠
      some "C")
    (hvia : "via" ∉ pySplit ' ' line)
    (his : "is" ∉ pySplit ' ' line) :
    quagga_step s line = .error .notImplementedError ∧
    ∀ (out : List QRec) (rest : List String),
      process_lines s out (line :: rest) = .error .notImplementedError := by
  have h0 : pyStrGet line 0 = .ok c0 := by simp [pyStrGet, hdata]
  have h1 : pyStrGet line 1 = .ok c1 := by simp [pyStrGet, hdata]
  have h2 : pyStrGet line 2 = .ok c2 := by simp [pyStrGet, hdata]
  have hstep : quagga_step s line = .error .notImplementedError := by
    unfold quagga_step
    rw [h0, h1, h2]
    simp only [Bind.bind, Except.bind, if_neg hproto, if_neg hvia,
      if_neg his]
  refine ⟨hstep, fun out rest => ?_⟩
  simp [process_lines, hstep]

/-- Witness for C4 (amended) at the concrete line `O>* strange format`
(protocol `O`, no `via`, no `is`) from the initial parser state. -/
theorem claim_C4_witness :
    quagga_step {} "O>* strange format" = .error .notImplementedError ∧
    process_lines {} [] ["O>* strange format"] =
      .error .notImplementedError := by
  have h := claim_C4_unanchored_routed_line_raises {} "O>* strange format"
    'O' '>' '*' " strange format".data rfl (by decide) (by decide) (by decide)
  exact ⟨h.1, h.2 [] []⟩

/-- The residual locals holding subnet/AD/RD agree with the caches: each is
assigned and holds exactly the cached value. -/
def QSynced (t : QState) : Prop :=
  t.v_subnet = some t.last_subnet ∧ t.v_ad = some t.last_ad ∧
  t.v_rd = some t.last_rd

theorem find_via_ok (full : List String) (cached : Bool) (s : QState) :
    ∀ (ts : List String) (num : Nat) (s2 : QState),
      "via" ∈ ts →
      find_via full cached s ts num = .ok s2 →
      QSynced s2 ∧ s2.last_proto = s.last_proto ∧
      (∃ g, s2.v_gw = some g) ∧ (∃ a, s2.v_adapter = some a) ∧
      (cached = true → s2.last_subnet = s.last_subnet ∧
        s2.last_ad = s.last_ad ∧ s2.last_rd = s.last_rd) := by
  intro ts
  induction ts with
  | nil => intro num s2 hmem; cases hmem
  | cons token rest ih =>
    intro num s2 hmem hok
    by_cases htok : token = "via"
    · subst htok
      unfold find_via at hok
      rw [if_pos rfl] at hok
      cases cached with
      | true =>
        cases hgw : pyIdx full ((num : Int) + 1) with
        | error e => simp [Bind.bind, Except.bind, hgw] at hok
        | ok gwv =>
          cases had : pyIdx full ((num : Int) + 2) with
          | error e => simp [Bind.bind, Except.bind, hgw, had] at hok
          | ok adv =>
            simp [Bind.bind, Except.bind, hgw, had] at hok
            subst hok
            exact ⟨⟨rfl, rfl, rfl⟩, rfl, ⟨_, rfl⟩, ⟨_, rfl⟩,
              fun _ => ⟨rfl, rfl, rfl⟩⟩
      | false =>
        cases hsub : pyIdx full ((num : Int) - 2) with
        | error e => simp [Bind.bind, Except.bind, hsub] at hok
        | ok subv =>
          cases hadrd : pyIdx full ((num : Int) - 1) with
          | error e => simp [Bind.bind, Except.bind, hsub, hadrd] at hok
          | ok adrdv =>
            cases hup : pyUnpack2 (pySplit '/' (pyStrip ['[', ']'] adrdv)) with
            | error e =>
              simp [Bind.bind, Except.bind, hsub, hadrd, hup] at hok
            | ok p =>
              obtain ⟨adS, rdS⟩ := p
              cases hia : pyInt adS with
              | error e =>
                simp [Bind.bind, Except.bind, hsub, hadrd, hup, hia] at hok
              | ok adv =>
                cases hir : pyInt rdS with
                | error e =>
                  simp [Bind.bind, Except.bind, hsub, hadrd, hup, hia,
                    hir] at hok
                | ok rdv =>
                  cases hgw : pyIdx full ((num : Int) + 1) with
                  | error e =>
                    simp [Bind.bind, Except.bind, hsub, hadrd, hup, hia,
                      hir, hgw] at hok
                  | ok gwv =>
                    cases had2 : pyIdx full ((num : Int) + 2) with
                    | error e =>
                      simp [Bind.bind, Except.bind, hsub, hadrd, hup, hia,
                        hir, hgw, had2] at hok
                    | ok adv2 =>
                      simp [Bind.bind, Except.bind, hsub, hadrd, hup,
                        hia, hir, hgw, had2] at hok
                      subst hok
                      exact ⟨⟨rfl, rfl, rfl⟩, rfl, ⟨_, rfl⟩, ⟨_, rfl⟩,
                        fun hc => by cases hc⟩
    · unfold find_via at hok
      rw [if_neg htok] at hok
      have hmem' : "via" ∈ rest := by
        rcases List.mem_cons.mp hmem with h | h
        · exact absurd h.symm htok
        · exact h
      exact ih num.succ s2 hmem' hok

theorem find_is_routed_pres (full : List String) :
    ∀ (ts : List String) (num : Nat) (t t2 : QState),
      find_is_routed full t ts num = .ok t2 →
      (QSynced t → QSynced t2) ∧ t2.last_proto = t.last_proto ∧
      ((∃ g, t.v_gw = some g) → ∃ g, t2.v_gw = some g) ∧
      ((∃ a, t.v_adapter = some a) → ∃ a, t2.v_adapter = some a) := by
  intro ts
  induction ts with
  | nil =>
    intro num t t2 hok
    cases hok
    exact ⟨id, rfl, id, id⟩
  | cons token rest ih =>
    intro num t t2 hok
    by_cases htok : token = "is"
    · subst htok
      unfold find_is_routed at hok
      rw [if_pos rfl] at hok
      cases hsub : pyIdx full ((num : Int) - 2) with
      | error e => simp [Bind.bind, Except.bind, hsub] at hok
      | ok subv =>
        cases hadrd : pyIdx full ((num : Int) - 1) with
        | error e => simp [Bind.bind, Except.bind, hsub, hadrd] at hok
        | ok adrdv =>
          cases hup : pyUnpack2 (pySplit '/' (pyStrip ['[', ']'] adrdv)) with
          | error e =>
            simp [Bind.bind, Except.bind, hsub, hadrd, hup] at hok
          | ok p =>
            obtain ⟨adS, rdS⟩ := p
            cases hia : pyInt adS with
            | error e =>
              simp [Bind.bind, Except.bind, hsub, hadrd, hup, hia] at hok
            | ok adv =>
              cases hir : pyInt rdS with
              | error e =>
                simp [Bind.bind, Except.bind, hsub, hadrd, hup, hia,
                  hir] at hok
              | ok rdv =>
                cases had3 : pyIdx full ((num : Int) + 3) with
                | error e =>
                  simp [Bind.bind, Except.bind, hsub, hadrd, hup, hia, hir,
                    had3] at hok
                | ok adv3 =>
                  simp only [Bind.bind, Except.bind, hsub, hadrd, hup, hia,
                    hir, had3] at hok
                  have := ih (num + 1) _ t2 hok
                  exact ⟨fun _ => this.1 ⟨rfl, rfl, rfl⟩, this.2.1,
                    fun _ => this.2.2.1 ⟨_, rfl⟩,
                    fun _ => this.2.2.2 ⟨_, rfl⟩⟩
    · unfold find_is_routed at hok
      rw [if_neg htok] at hok
      exact ih (num + 1) t t2 hok

theorem find_is_routed_ok (full : List String) :
    ∀ (ts : List String) (num : Nat) (t t2 : QState),
      "is" ∈ ts →
      find_is_routed full t ts num = .ok t2 →
      QSynced t2 ∧ t2.last_proto = t.last_proto ∧
      (∃ g, t2.v_gw = some g) ∧ (∃ a, t2.v_adapter = some a) := by
  intro ts
  induction ts with
  | nil => intro num t t2 hmem; cases hmem
  | cons token rest ih =>
    intro num t t2 hmem hok
    by_cases htok : token = "is"
    · subst htok
      unfold find_is_routed at hok
      rw [if_pos rfl] at hok
      cases hsub : pyIdx full ((num : Int) - 2) with
      | error e => simp [Bind.bind, Except.bind, hsub] at hok
      | ok subv =>
        cases hadrd : pyIdx full ((num : Int) - 1) with
        | error e => simp [Bind.bind, Except.bind, hsub, hadrd] at hok
        | ok adrdv =>
          cases hup : pyUnpack2 (pySplit '/' (pyStrip ['[', ']'] adrdv)) with
          | error e =>
            simp [Bind.bind, Except.bind, hsub, hadrd, hup] at hok
          | ok p =>
            obtain ⟨adS, rdS⟩ := p
            cases hia : pyInt adS with
            | error e =>
              simp [Bind.bind, Except.bind, hsub, hadrd, hup, hia] at hok
            | ok adv =>
              cases hir : pyInt rdS with
              | error e =>
                simp [Bind.bind, Except.bind, hsub, hadrd, hup, hia,
                  hir] at hok
              | ok rdv =>
                cases had3 : pyIdx full ((num : Int) + 3) with
                | error e =>
                  simp [Bind.bind, Except.bind, hsub, hadrd, hup, hia, hir,
                    had3] at hok
                | ok adv3 =>
                  simp only [Bind.bind, Except.bind, hsub, hadrd, hup, hia,
                    hir, had3] at hok
                  have := find_is_routed_pres full rest (num + 1) _ t2 hok
                  exact ⟨this.1 ⟨rfl, rfl, rfl⟩, this.2.1,
                    this.2.2.1 ⟨_, rfl⟩, this.2.2.2 ⟨_, rfl⟩⟩
    · unfold find_is_routed at hok
      rw [if_neg htok] at hok
      have hmem' : "is" ∈ rest := by
        rcases List.mem_cons.mp hmem with h | h
        · exact absurd h.symm htok
        · exact h
      exact ih (num + 1) t t2 hmem' hok

theorem quagga_step_noncont_cache (s : QState) (line : String)
    (c0 c1 c2 : Char) (cs : List Char) (s' : QState) (r : QRec)
    (hdata : line.data = c0 :: c1 :: c2 :: cs) (hc0 : c0 ≠ ' ')
    (hCp : String.mk [c0] ≠ "C")
    (hok : quagga_step s line = .ok (s', r)) :
    r.subnet = s'.last_subnet ∧ r.ad = s'.last_ad ∧ r.rd = s'.last_rd ∧
    r.protocol = s'.last_proto ∧ r.protocol = some (String.mk [c0]) := by
  have h0 : pyStrGet line 0 = .ok c0 := by simp [pyStrGet, hdata]
  have h1 : pyStrGet line 1 = .ok c1 := by simp [pyStrGet, hdata]
  have h2 : pyStrGet line 2 = .ok c2 := by simp [pyStrGet, hdata]
  unfold quagga_step at hok
  rw [h0, h1, h2] at hok
  simp only [Bind.bind, Except.bind, hc0, if_false, ite_false, if_neg hc0,
    Option.some.injEq, if_neg hCp, decide_eq_true_eq] at hok
  by_cases hvia : "via" ∈ pySplit ' ' line
  · rw [if_pos hvia] at hok
    split at hok
    · cases hok
    · next s2 heq =>
      obtain ⟨hsync, hlp2, ⟨g, hg⟩, ⟨a, ha⟩, -⟩ :=
        find_via_ok (pySplit ' ' line) false _ (pySplit ' ' line) 0 s2
          hvia heq
      rw [hsync.1, hsync.2.1, hsync.2.2, hg, ha] at hok
      simp only [Except.ok.injEq, Prod.mk.injEq] at hok
      obtain ⟨rfl, rfl⟩ := hok
      exact ⟨rfl, rfl, rfl, hlp2.symm, rfl⟩
  · rw [if_neg hvia] at hok
    by_cases his : "is" ∈ pySplit ' ' line
    · rw [if_pos his] at hok
      split at hok
      · cases hok
      · next s2 heq =>
        obtain ⟨hsync, hlp2, ⟨g, hg⟩, ⟨a, ha⟩⟩ :=
          find_is_routed_ok (pySplit ' ' line) (pySplit ' ' line) 0 _ s2
            his heq
        rw [hsync.1, hsync.2.1, hsync.2.2, hg, ha] at hok
        simp only [Except.ok.injEq, Prod.mk.injEq] at hok
        obtain ⟨rfl, rfl⟩ := hok
        exact ⟨rfl, rfl, rfl, hlp2.symm, rfl⟩
    · rw [if_neg his] at hok
      cases hok

theorem quagga_step_cont_via (s : QState) (line : String)
    (c1 c2 : Char) (cs : List Char) (s' : QState) (r : QRec)
    (hdata : line.data = ' ' :: c1 :: c2 :: cs)
    (hvia : "via" ∈ pySplit ' ' line)
    (hlp : s.last_proto ≠ some "C")
    (hok : quagga_step s line = .ok (s', r)) :
    r.subnet = s.last_subnet ∧ r.ad = s.last_ad ∧ r.rd = s.last_rd ∧
    r.protocol = s.last_proto ∧ s'.last_subnet = s.last_subnet ∧
    s'.last_ad = s.last_ad ∧ s'.last_rd = s.last_rd ∧
    s'.last_proto = s.last_proto := by
  have h0 : pyStrGet line 0 = .ok ' ' := by simp [pyStrGet, hdata]
  have h1 : pyStrGet line 1 = .ok c1 := by simp [pyStrGet, hdata]
  have h2 : pyStrGet line 2 = .ok c2 := by simp [pyStrGet, hdata]
  unfold quagga_step at hok
  rw [h0, h1, h2] at hok
  simp only [Bind.bind, Except.bind, if_pos rfl, if_neg hlp, ite_true,
    decide_eq_true_eq] at hok
  rw [if_pos hvia] at hok
  split at hok
  · cases hok
  · next s2 heq =>
    obtain ⟨hsync, hlpp, ⟨g, hg⟩, ⟨a, ha⟩, hpres⟩ :=
      find_via_ok (pySplit ' ' line) true s (pySplit ' ' line) 0 s2
        hvia heq
    obtain ⟨hps, hpa, hpr⟩ := hpres rfl
    rw [hsync.1, hsync.2.1, hsync.2.2, hg, ha] at hok
    simp only [Except.ok.injEq, Prod.mk.injEq] at hok
    obtain ⟨rfl, rfl⟩ := hok
    exact ⟨hps, hpa, hpr, rfl, hps, hpa, hpr, hlpp⟩

theorem process_lines_via_chain (x : Option String) (a rd0 : Option Int)
    (p : Option String) (hp : p ≠ some "C") :
    ∀ (ls : List String) (t : QState) (acc out : List QRec),
      t.last_subnet = x → t.last_ad = a → t.last_rd = rd0 →
      t.last_proto = p →
      (∀ l ∈ ls, (∃ d1 d2 ds, l.data = ' ' :: d1 :: d2 :: ds) ∧
        "via" ∈ pySplit ' ' l) →
      process_lines t acc ls = .ok out →
      ∃ rs, out = acc ++ rs ∧ ∀ q ∈ rs,
        q.subnet = x ∧ q.ad = a ∧ q.rd = rd0 ∧ q.protocol = p := by
  intro ls
  induction ls with
  | nil =>
    intro t acc out _ _ _ _ _ hok
    cases hok
    exact ⟨[], (List.append_nil acc).symm,
      fun q hq => absurd hq (List.not_mem_nil q)⟩
  | cons l ls2 ih =>
    intro t acc out h1 h2 h3 h4 hls hok
    obtain ⟨⟨d1, d2, ds, hdata⟩, hvia⟩ := hls l (List.mem_cons_self _ _)
    unfold process_lines at hok
    cases hstep : quagga_step t l with
    | error e => rw [hstep] at hok; cases hok
    | ok pr =>
      obtain ⟨t', q⟩ := pr
      rw [hstep] at hok
      have hcont := quagga_step_cont_via t l d1 d2 ds t' q hdata hvia
        (by rw [h4]; exact hp) hstep
      obtain ⟨hq1, hq2, hq3, hq4, ht1, ht2, ht3, ht4⟩ := hcont
      obtain ⟨rs, ho, hall⟩ := ih t' (acc ++ [q]) out (ht1.trans h1)
        (ht2.trans h2) (ht3.trans h3) (ht4.trans h4)
        (fun l2 hl2 => hls l2 (List.mem_cons_of_mem _ hl2)) hok
      refine ⟨q :: rs, ?_, ?_⟩
      · rw [ho, List.append_assoc]
        rfl
      · intro q2 hq2mem
        rcases List.mem_cons.mp hq2mem with rfl | hmem
        · exact ⟨hq1.trans h1, hq2.trans h2, hq3.trans h3, hq4.trans h4⟩
        · exact hall q2 hmem

/-- C5 (amended): continuation records inherit the cached route only
through the `via`-anchored branch.  If a non-continuation data line whose
protocol code is not the directly-connected code `C` parses successfully to
a record `r0`, then every following continuation line (leading space)
containing the token `via` parses, as long as only such continuation lines
intervene, to a record whose subnet, AD, RD and protocol code equal those
of `r0`.  (Continuation lines dispatched through an `is`-anchored branch
instead re-parse those fields from the line itself — see the
counterexample.) -/
theorem claim_C5_via_continuation_inherits_route (s : QState)
    (l0 : String) (c0 c1 c2 : Char) (cs : List Char)
    (ls : List String) (acc out : List QRec) (s1 : QState) (r0 : QRec)
    (hdata : l0.data = c0 :: c1 :: c2 :: cs)
    (hc0 : c0 ≠ ' ')
    (hCp : String.mk [c0] ≠ "C")
    (h0 : quagga_step s l0 = .ok (s1, r0))
    (hls : ∀ l ∈ ls, (∃ d1 d2 ds, l.data = ' ' :: d1 :: d2 :: ds) ∧
      "via" ∈ pySplit ' ' l)
    (hout : process_lines s1 (acc ++ [r0]) ls = .ok out) :
    ∃ rs, out = acc ++ r0 :: rs ∧ ∀ q ∈ rs,
      q.subnet = r0.subnet ∧ q.ad = r0.ad ∧ q.rd = r0.rd ∧
      q.protocol = r0.protocol := by
  obtain ⟨hs, ha, hr, hp, hpc⟩ :=
    quagga_step_noncont_cache s l0 c0 c1 c2 cs s1 r0 hdata hc0 hCp h0
  have hpne : r0.protocol ≠ some "C" := by
    rw [hpc]
    intro hh
    exact hCp (Option.some.inj hh)
  obtain ⟨rs, ho, hall⟩ := process_lines_via_chain r0.subnet r0.ad r0.rd
    r0.protocol hpne ls s1 (acc ++ [r0]) out hs.symm ha.symm hr.symm
    hp.symm hls hout
  refine ⟨rs, ?_, hall⟩
  rw [ho, List.append_assoc]
  rfl

/-- Concrete OSPF-style routed line for exercising the `via` branch. -/
def c5_l0 : String := "O>* 10.0.1.0/24 [110/20] via 10.0.0.2, eth0"

/-- Concrete equal-cost-next-hop continuation line for the `via` branch. -/
def c5_cont : String := " >* via 10.0.0.3, eth1"

/-- Parser state after processing `c5_l0` from the initial state. -/
def c5_s1 : QState :=
  { last_proto := some "O", last_subnet := some "10.0.1.0/24",
    last_ad := some 110, last_rd := some 20,
    v_subnet := some (some "10.0.1.0/24"), v_ad := some (some 110),
    v_rd := some (some 20), v_gw := some (some "10.0.0.2"),
    v_adapter := some "eth0" }

/-- Record emitted for `c5_l0`. -/
def c5_r0 : QRec :=
  { protocol := some "O", selected := true, fib := true,
    subnet := some "10.0.1.0/24", ad := some 110, rd := some 20,
    gw := some "10.0.0.2", intf := "eth0" }

/-- Record emitted for `c5_cont`. -/
def c5_r1 : QRec :=
  { protocol := some "O", selected := true, fib := true,
    subnet := some "10.0.1.0/24", ad := some 110, rd := some 20,
    gw := some "10.0.0.3", intf := "eth1" }

/-- Witness for C5 (amended) on the concrete two-line input
`c5_l0` then `c5_cont`. -/
theorem claim_C5_witness :
    c5_r1.subnet = c5_r0.subnet ∧ c5_r1.ad = c5_r0.ad ∧
    c5_r1.rd = c5_r0.rd ∧ c5_r1.protocol = c5_r0.protocol := by
  obtain ⟨rs, hrs, hall⟩ := claim_C5_via_continuation_inherits_route {}
    c5_l0 'O' '>' '*' " 10.0.1.0/24 [110/20] via 10.0.0.2, eth0".data
    [c5_cont] [] [c5_r0, c5_r1] c5_s1 c5_r0
    (by decide) (by decide) (by decide) (by decide)
    (by
      intro l hl
      rw [List.mem_singleton] at hl
      subst hl
      exact ⟨⟨'>', '*', " via 10.0.0.3, eth1".data, by decide⟩, by decide⟩)
    (by decide)
  have hrs2 : c5_r0 :: rs = [c5_r0, c5_r1] := by
    rw [List.nil_append] at hrs
    exact hrs.symm
  have hmem : c5_r1 ∈ rs := by
    have := (List.cons.injEq _ _ _ _).mp hrs2
    rw [this.2]
    exact List.mem_singleton.mpr rfl
  exact hall c5_r1 hmem

/-! ## Interface-address line parser: `nethelpers.py`
(`_parse_ip_addr_single_line`) -/

/-- The dict built by `_parse_ip_addr_single_line` (defaults as in the
source: `id`, `valid_left`, `preferred_left` start as `None`, strings start
empty; `brd` is only filled for the `inet` family). -/
structure IfAddrData where
  id : Option String := none
  name : String := ""
  family : String := ""
  address : String := ""
  brd : String := ""
  scope : String := ""
  valid_left : Option Int := none
  preferred_left : Option Int := none
  deriving DecidableEq, Repr

/-- `_parse_ip_addr_single_line`: split the line into two blocks at the
backslash (exactly two, else `ValueError` from the unpacking), read the
positional fields of block one, then the lifetimes from block two.  The
source computes `preferred_left` from `tokens[1]` — the valid-lifetime
token — instead of `tokens[3]`. -/
def parse_ip_addr_single_line (line : String) : Except PyErr IfAddrData :=
  match pySplit '\\' line with
  | [block1, block2] => do
    let tokens := pySplit ' ' block1
    let t0 ← pyIdx tokens 0
    let name ← pyIdx tokens 1
    let family ← pyIdx tokens 2
    let address ← pyIdx tokens 3
    let bs ←
      if family = "inet" then do
        let b ← pyIdx tokens 5
        .ok (b, (7 : Int))
      else .ok ("", (5 : Int))
    let scope ← pyIdx tokens bs.2
    let tokens2 := pySplit ' ' block2
    let t1 ← pyIdx tokens2 1
    let valid_left ←
      if t1 = "forever" then .ok (-1 : Int)
      else pyInt (pyStrip ['s', 'e', 'c'] t1)
    let t3 ← pyIdx tokens2 3
    let preferred_left ←
      if t3 = "forever" then .ok (-1 : Int)
      else pyInt (pyStrip ['s', 'e', 'c'] t1)
    .ok { id := some (pyStrip [':'] t0), name := name, family := family,
          address := address, brd := bs.1, scope := scope,
          valid_left := some valid_left,
          preferred_left := some preferred_left }
  | _ => .error .valueError

/-- C9: whenever an interface-address line parses successfully and its
preferred-lifetime token (index 3 of the second block) is not `forever`,
the numeric `preferred_left` value is computed from the valid-lifetime
token at index 1 of the second block — the same token as `valid_left` —
and therefore always equals `valid_left`. -/
theorem claim_C9_preferred_left_reuses_valid_token (line : String)
    (d : IfAddrData) (b1 b2 t1 t3 : String)
    (hsplit : pySplit '\\' line = [b1, b2])
    (ht1 : pyIdx (pySplit ' ' b2) 1 = .ok t1)
    (ht3 : pyIdx (pySplit ' ' b2) 3 = .ok t3)
    (ht3f : t3 ≠ "forever")
    (hok : parse_ip_addr_single_line line = .ok d) :
    d.preferred_left = d.valid_left ∧
    ∃ v, pyInt (pyStrip ['s', 'e', 'c'] t1) = .ok v ∧
      d.preferred_left = some v := by
  unfold parse_ip_addr_single_line at hok
  rw [hsplit] at hok
  cases h0 : pyIdx (pySplit ' ' b1) 0 with
  | error e => simp [Bind.bind, Except.bind, h0] at hok
  | ok t0 =>
  cases h1 : pyIdx (pySplit ' ' b1) 1 with
  | error e => simp [Bind.bind, Except.bind, h0, h1] at hok
  | ok nm =>
  cases h2 : pyIdx (pySplit ' ' b1) 2 with
  | error e => simp [Bind.bind, Except.bind, h0, h1, h2] at hok
  | ok fam =>
  cases h3 : pyIdx (pySplit ' ' b1) 3 with
  | error e => simp [Bind.bind, Except.bind, h0, h1, h2, h3] at hok
  | ok addr =>
  simp only [Bind.bind, Except.bind, h0, h1, h2, h3, ht1, ht3,
    if_neg ht3f] at hok
  by_cases h1f : t1 = "forever"
  · have hforever : pyInt (pyStrip ['s', 'e', 'c'] "forever") =
        .error .valueError := by decide
    by_cases hfam : fam = "inet"
    · rw [if_pos hfam] at hok
      cases hb5 : pyIdx (pySplit ' ' b1) 5 with
      | error e => simp [hb5] at hok
      | ok brd =>
      cases hb7 : pyIdx (pySplit ' ' b1) 7 with
      | error e => simp [hb5, hb7] at hok
      | ok scope =>
      simp [hb5, hb7, h1f, hforever] at hok
    · rw [if_neg hfam] at hok
      cases hb5 : pyIdx (pySplit ' ' b1) 5 with
      | error e => simp [hb5] at hok
      | ok scope =>
      simp [hb5, h1f, hforever] at hok
  · by_cases hfam : fam = "inet"
    · rw [if_pos hfam] at hok
      cases hb5 : pyIdx (pySplit ' ' b1) 5 with
      | error e => simp [hb5] at hok
      | ok brd =>
      cases hb7 : pyIdx (pySplit ' ' b1) 7 with
      | error e => simp [hb5, hb7] at hok
      | ok scope =>
      simp only [hb5, hb7] at hok
      rw [if_neg h1f] at hok
      cases hv : pyInt (pyStrip ['s', 'e', 'c'] t1) with
      | error e => simp [hv] at hok
      | ok v =>
      simp only [hv] at hok
      cases hok
      exact ⟨rfl, v, rfl, rfl⟩
    · rw [if_neg hfam] at hok
      cases hb5 : pyIdx (pySplit ' ' b1) 5 with
      | error e => simp [hb5] at hok
      | ok scope =>
      simp only [hb5] at hok
      rw [if_neg h1f] at hok
      cases hv : pyInt (pyStrip ['s', 'e', 'c'] t1) with
      | error e => simp [hv] at hok
      | ok v =>
      simp only [hv] at hok
      cases hok
      exact ⟨rfl, v, rfl, rfl⟩

/-- The record parsed from a concrete `ip addr list` output line with
valid lifetime `100sec` and preferred lifetime `50sec`: the source's
copy-paste makes `preferred_left` equal `100`, not `50`. -/
def c9_data : IfAddrData :=
  { id := some "2", name := "eth0", family := "inet",
    address := "10.0.0.1/24", brd := "10.0.0.255", scope := "global",
    valid_left := some 100, preferred_left := some 100 }

/-- Witness for C9 on a concrete interface-address line. -/
theorem claim_C9_witness : c9_data.preferred_left = c9_data.valid_left :=
  (claim_C9_preferred_left_reuses_valid_token
    "2: eth0 inet 10.0.0.1/24 brd 10.0.0.255 scope global\\valid_lft 100sec preferred_lft 50sec"
    c9_data "2: eth0 inet 10.0.0.1/24 brd 10.0.0.255 scope global"
    "valid_lft 100sec preferred_lft 50sec" "100sec" "50sec"
    (by decide) (by decide) (by decide) (by decide) (by decide)).1

/-! ## Residual-bandwidth cost provider: `pathloadcostprovider.py`
(`PathLoadCostProvider`) -/

/-- External collaborators of the provider.  The network-map object `nm`
and the `NetNode` class are not among the staged sources, so they enter
the embedding as opaque functions: `out_edges` models `nm.get_out_edges`
(for each outgoing edge of a node, the peer node and the optional
`capacity` parameter; the source's `assert a_node == from_node` makes the
first tuple component redundant), `node_type` the `NetNode.type`
attribute, `tx_load`/`rx_load` the `NetNode.get_adapter_tx_load` /
`get_adapter_rx_load` sample lookups keyed by node and the local adapter
name exactly as the source passes it (an `Option` for the receive side,
which gets the possibly-`None` re-resolved local name), and `core_data`
is `nm.core_data`, the `CoreNetData` embedded above. -/
structure ProviderEnv where
  out_edges : String → List (String × Option Int)
  node_type : String → String
  tx_load : String → String → Option Int
  rx_load : String → Option String → Option Int
  core_data : CoreNetData

/-- `PathLoadCostProvider.get_link_capacity`: the first outgoing edge of
`from_node` whose peer is `to_node` gives `params.get('capacity')`; with
no such edge the result is `None`. -/
def get_link_capacity (env : ProviderEnv) (from_node to_node : String) :
    Option Int :=
  match (env.out_edges from_node).find? (fun e => e.1 = to_node) with
  | some e => e.2
  | none => none

/-- The `while pairs_left` loop of `get_residual_bw_for_path`, walking
consecutive path pairs and collecting the residual bandwidths; `none`
embeds the early `return None` exits (unknown capacity, adapters not
found). -/
def residual_bws (env : ProviderEnv) : List String → Option (List Int)
  | node_a :: node_b :: rest =>
    match get_link_capacity env node_a node_b with
    | none => none
    | some cap =>
      if env.node_type node_a = "user" ∧ env.node_type node_b = "user" then
        match residual_bws env (node_b :: rest) with
        | none => none
        | some tl => some (cap :: tl)
      else
        match env.core_data.get_adapter_names node_a node_b with
        | none => none
        | some ((_, node_a_local), (_, node_b_local)) =>
          let r :=
            if env.node_type node_b = "user" then
              match env.tx_load node_a node_a_local with
              | none => cap
              | some load => max 0 (cap - load)
            else
              match env.rx_load node_b node_b_local with
              | none => cap
              | some load => max 0 (cap - load)
          match residual_bws env (node_b :: rest) with
          | none => none
          | some tl => some (r :: tl)
  | _ => some []

/-- `PathLoadCostProvider.get_residual_bw_for_path`: `None` when a
segment's capacity or adapters are unknown, otherwise `min(residual_bws)`
— which raises `ValueError` on the empty list a single-node path
produces.  (On a zero-node path the source's `pairs_left = -1` is truthy
and `path[0]` raises `KeyError`.) -/
def get_residual_bw_for_path (env : ProviderEnv) (path : List String) :
    Except PyErr (Option Int) :=
  match path with
  | [] => .error .keyError
  | _ =>
    match residual_bws env path with
    | none => .ok none
    | some [] => .error .valueError
    | some (x :: xs) => .ok (some (xs.foldl min x))

/-- Endpoint resolution and path production used by `get_cost`.
Modelled from the spec: `IPAddrParser.to_object` / `from_object` and the
Path Resolver `nm.dev_to_dev_iterator` are not among the staged sources;
per §4.4 the resolver yields the ordered device sequence from source to
destination, a single-element path when source equals destination. -/
structure CostEnv extends ProviderEnv where
  to_object : String → String
  from_object : String → String
  dev_to_dev_iterator : String → String → List String

/-- The inner `for dst in dsts` loop of `get_cost`: build the path with
`nm.dev_to_dev_iterator`, get the residual bandwidth, skip the pair when
it is `None`, store it under the formatted destination otherwise. -/
def get_cost_inner (env : CostEnv) (src : String) :
    List String → List (String × Int) → Except PyErr (List (String × Int))
  | [], this_src => .ok this_src
  | dst :: rest, this_src =>
    match get_residual_bw_for_path env.toProviderEnv
        (env.dev_to_dev_iterator src dst) with
    | .error e => .error e
    | .ok none => get_cost_inner env src rest this_src
    | .ok (some rbw) =>
      get_cost_inner env src rest
        (dictInsert this_src (env.from_object dst) rbw)

/-- The outer `for src in srcs` loop of `get_cost`: store a source's inner
mapping only when `any(this_src)` holds. -/
def get_cost_outer (env : CostEnv) (dsts : List String) :
    List String → List (String × List (String × Int)) →
    Except PyErr (List (String × List (String × Int)))
  | [], costmap => .ok costmap
  | src :: rest, costmap =>
    match get_cost_inner env src dsts [] with
    | .error e => .error e
    | .ok this_src =>
      if pyAnyDict this_src then
        get_cost_outer env dsts rest
          (dictInsert costmap (env.from_object src) this_src)
      else get_cost_outer env dsts rest costmap

/-- `PathLoadCostProvider.get_cost`: parse every endpoint string to an
object and run the two loops starting from empty dicts. -/
def get_cost (env : CostEnv) (in_srcs in_dsts : List String) :
    Except PyErr (List (String × List (String × Int))) :=
  get_cost_outer env (in_dsts.map env.to_object)
    (in_srcs.map env.to_object) []

/-- C10: when the Path Resolver hands `get_residual_bw_for_path` a
single-element path — as it does for src = dst — the residual list stays
empty, `min([])` raises `ValueError`, and `get_cost` for such a pair
propagates that exception instead of omitting the pair or returning a
cost. -/
theorem claim_C10_single_node_path_raises (env : CostEnv) (s d x : String)
    (hpath : env.dev_to_dev_iterator (env.to_object s) (env.to_object d) =
      [x]) :
    get_residual_bw_for_path env.toProviderEnv
      (env.dev_to_dev_iterator (env.to_object s) (env.to_object d)) =
      .error .valueError ∧
    get_cost env [s] [d] = .error .valueError := by
  have h1 : get_residual_bw_for_path env.toProviderEnv
      (env.dev_to_dev_iterator (env.to_object s) (env.to_object d)) =
      .error .valueError := by
    rw [hpath]
    rfl
  refine ⟨h1, ?_⟩
  unfold get_cost get_cost_outer get_cost_inner
  simp only [List.map_cons, List.map_nil]
  rw [h1]

/-- Environment for the C10 witness: every device is of type `user`, no
edges or loads exist, endpoints parse to themselves, and the path resolver
always yields the single device `X`. -/
def c10_env : CostEnv :=
  { out_edges := fun _ => [], node_type := fun _ => "user",
    tx_load := fun _ _ => none, rx_load := fun _ _ => none,
    core_data := { bridges := [], mappings := [], valid := false },
    to_object := fun a => a, from_object := fun a => a,
    dev_to_dev_iterator := fun _ _ => ["X"] }

/-- Witness for C10 at the concrete environment `c10_env`. -/
theorem claim_C10_witness :
    get_residual_bw_for_path c10_env.toProviderEnv
      (c10_env.dev_to_dev_iterator (c10_env.to_object "a")
        (c10_env.to_object "a")) = .error .valueError ∧
    get_cost c10_env ["a"] ["a"] = .error .valueError :=
  claim_C10_single_node_path_raises c10_env "a" "a" "X" rfl

/-- The consecutive device pairs (segments) of a path. -/
def pathPairs {α : Type} : List α → List (α × α)
  | a :: b :: rest => (a, b) :: pathPairs (b :: rest)
  | _ => []

/-- `min` of a list as Python computes it (`None` marks the empty list,
where Python raises). -/
def minList : List Int → Option Int
  | [] => none
  | x :: xs => some (xs.foldl min x)

/-- The residual bandwidth of one path segment as the loop body computes
it: the raw link capacity for user-to-user segments or when no live load
sample exists, `max(0, capacity − load)` otherwise — the transmit load of
the sender when the receiver is a user device, the receive load of the
receiver otherwise.  0 is a junk default for the unknown-capacity /
unknown-adapters cases, which the theorems' hypotheses exclude. -/
def segment_residual (env : ProviderEnv) (p : String × String) : Int :=
  match get_link_capacity env p.1 p.2 with
  | none => 0
  | some cap =>
    if env.node_type p.1 = "user" ∧ env.node_type p.2 = "user" then cap
    else
      match env.core_data.get_adapter_names p.1 p.2 with
      | none => 0
      | some ((_, a_local), (_, b_local)) =>
        if env.node_type p.2 = "user" then
          match env.tx_load p.1 a_local with
          | none => cap
          | some load => max 0 (cap - load)
        else
          match env.rx_load p.2 b_local with
          | none => cap
          | some load => max 0 (cap - load)

/-- The raw configured capacity of a segment (0 when unknown). -/
def raw_capacity (env : ProviderEnv) (p : String × String) : Int :=
  (get_link_capacity env p.1 p.2).getD 0

theorem residual_bws_eq_map (env : ProviderEnv) :
    ∀ path : List String,
      (∀ p ∈ pathPairs path, (get_link_capacity env p.1 p.2).isSome) →
      (∀ p ∈ pathPairs path,
        ¬(env.node_type p.1 = "user" ∧ env.node_type p.2 = "user") →
        (env.core_data.get_adapter_names p.1 p.2).isSome) →
      residual_bws env path =
        some ((pathPairs path).map (segment_residual env)) := by
  intro path
  induction path with
  | nil => intro _ _; rfl
  | cons a tl ih =>
    cases tl with
    | nil => intro _ _; rfl
    | cons b rest =>
      intro hcap hadapt
      have hmem : (a, b) ∈ pathPairs (a :: b :: rest) :=
        List.mem_cons_self _ _
      obtain ⟨cap, hc⟩ := Option.isSome_iff_exists.mp (hcap _ hmem)
      have htail : residual_bws env (b :: rest) =
          some ((pathPairs (b :: rest)).map (segment_residual env)) :=
        ih (fun p hp => hcap p (List.mem_cons_of_mem _ hp))
          (fun p hp => hadapt p (List.mem_cons_of_mem _ hp))
      show (match get_link_capacity env a b with
        | none => none
        | some cap =>
          if env.node_type a = "user" ∧ env.node_type b = "user" then
            match residual_bws env (b :: rest) with
            | none => none
            | some tl => some (cap :: tl)
          else
            match env.core_data.get_adapter_names a b with
            | none => none
            | some ((_, node_a_local), (_, node_b_local)) =>
              let r :=
                if env.node_type b = "user" then
                  match env.tx_load a node_a_local with
                  | none => cap
                  | some load => max 0 (cap - load)
                else
                  match env.rx_load b node_b_local with
                  | none => cap
                  | some load => max 0 (cap - load)
              match residual_bws env (b :: rest) with
              | none => none
              | some tl => some (r :: tl)) = _
      simp only [hc]
      by_cases huser : env.node_type a = "user" ∧ env.node_type b = "user"
      · rw [if_pos huser, htail]
        have hseg : segment_residual env (a, b) = cap := by
          unfold segment_residual
          simp only [hc]
          exact if_pos huser
        show some (cap :: _) = some (List.map _ ((a, b) :: _))
        rw [List.map_cons, hseg]
      · rw [if_neg huser]
        obtain ⟨⟨⟨g1, l1⟩, g2, l2⟩, ha⟩ :=
          Option.isSome_iff_exists.mp (hadapt _ hmem huser)
        simp only [ha, htail]
        have hseg : segment_residual env (a, b) =
            (if env.node_type b = "user" then
              match env.tx_load a l1 with
              | none => cap
              | some load => max 0 (cap - load)
            else
              match env.rx_load b l2 with
              | none => cap
              | some load => max 0 (cap - load)) := by
          unfold segment_residual
          simp only [hc, ha]
          rw [if_neg huser]
        show some (_ :: _) = some (List.map _ ((a, b) :: _))
        rw [List.map_cons, hseg]

theorem foldl_min_nonneg :
    ∀ (xs : List Int) (x : Int), 0 ≤ x → (∀ y ∈ xs, 0 ≤ y) →
      0 ≤ xs.foldl min x := by
  intro xs
  induction xs with
  | nil => intro x hx _; exact hx
  | cons y ys ih =>
    intro x hx hall
    show 0 ≤ List.foldl min (min x y) ys
    exact ih (min x y) (le_min hx (hall y (List.mem_cons_self _ _)))
      (fun z hz => hall z (List.mem_cons_of_mem _ hz))

theorem foldl_min_mono {α : Type} (f g : α → Int) :
    ∀ (l : List α) (x y : Int), x ≤ y → (∀ p ∈ l, f p ≤ g p) →
      (l.map f).foldl min x ≤ (l.map g).foldl min y := by
  intro l
  induction l with
  | nil => intro x y hxy _; exact hxy
  | cons p ps ih =>
    intro x y hxy hall
    show List.foldl min (min x (f p)) (ps.map f) ≤
      List.foldl min (min y (g p)) (ps.map g)
    exact ih (min x (f p)) (min y (g p))
      (min_le_min hxy (hall p (List.mem_cons_self _ _)))
      (fun q hq => hall q (List.mem_cons_of_mem _ hq))

theorem segment_residual_nonneg (env : ProviderEnv) (p : String × String)
    (hc0 : ∀ c, get_link_capacity env p.1 p.2 = some c → 0 ≤ c) :
    0 ≤ segment_residual env p := by
  unfold segment_residual
  split
  · exact le_refl 0
  · next cap hcap =>
    have hcp := hc0 cap hcap
    split
    · exact hcp
    · split
      · exact le_refl 0
      · split
        · split
          · exact hcp
          · exact le_max_left 0 _
        · split
          · exact hcp
          · exact le_max_left 0 _

theorem segment_residual_le_raw (env : ProviderEnv) (p : String × String)
    (hc0 : ∀ c, get_link_capacity env p.1 p.2 = some c → 0 ≤ c)
    (htx : ∀ n l v, env.tx_load n l = some v → 0 ≤ v)
    (hrx : ∀ n l v, env.rx_load n l = some v → 0 ≤ v) :
    segment_residual env p ≤ raw_capacity env p := by
  unfold segment_residual raw_capacity
  split
  · next hcap => rw [hcap]; exact le_refl 0
  · next cap hcap =>
    rw [hcap]
    have hcp := hc0 cap hcap
    show _ ≤ cap
    split
    · exact le_refl cap
    · split
      · exact hcp
      · split
        · split
          · exact le_refl cap
          · next load hld => exact max_le hcp (sub_le_self cap (htx _ _ _ hld))
        · split
          · exact le_refl cap
          · next load hld => exact max_le hcp (sub_le_self cap (hrx _ _ _ hld))

/-- C3: on a path of length ≥ 2 where every segment has a known capacity
and findable connecting adapters (and capacities and load samples are
nonnegative, as bandwidths and byte rates are), the residual-bandwidth
cost equals the minimum over the consecutive device pairs of the segment
residual — raw capacity for user-to-user segments or when no load sample
exists, `max(0, capacity − load)` otherwise — and is therefore
nonnegative and at most the minimum of the segments' raw capacities. -/
theorem claim_C3_residual_cost_is_bottleneck_min (env : ProviderEnv)
    (a b : String) (rest : List String)
    (hcap : ∀ p ∈ pathPairs (a :: b :: rest),
      (get_link_capacity env p.1 p.2).isSome)
    (hadapt : ∀ p ∈ pathPairs (a :: b :: rest),
      ¬(env.node_type p.1 = "user" ∧ env.node_type p.2 = "user") →
      (env.core_data.get_adapter_names p.1 p.2).isSome)
    (hc0 : ∀ p ∈ pathPairs (a :: b :: rest), ∀ c,
      get_link_capacity env p.1 p.2 = some c → 0 ≤ c)
    (htx : ∀ n l v, env.tx_load n l = some v → 0 ≤ v)
    (hrx : ∀ n l v, env.rx_load n l = some v → 0 ≤ v) :
    ∃ c, get_residual_bw_for_path env (a :: b :: rest) = .ok (some c) ∧
      minList ((pathPairs (a :: b :: rest)).map (segment_residual env)) =
        some c ∧
      0 ≤ c ∧
      ∀ m, minList ((pathPairs (a :: b :: rest)).map (raw_capacity env)) =
        some m → c ≤ m := by
  have hr := residual_bws_eq_map env (a :: b :: rest) hcap hadapt
  have hmap : (pathPairs (a :: b :: rest)).map (segment_residual env) =
      segment_residual env (a, b) ::
        (pathPairs (b :: rest)).map (segment_residual env) := rfl
  have hmapr : (pathPairs (a :: b :: rest)).map (raw_capacity env) =
      raw_capacity env (a, b) ::
        (pathPairs (b :: rest)).map (raw_capacity env) := rfl
  refine ⟨((pathPairs (b :: rest)).map (segment_residual env)).foldl min
    (segment_residual env (a, b)), ?_, ?_, ?_, ?_⟩
  · show (match residual_bws env (a :: b :: rest) with
      | none => (.ok none : Except PyErr (Option Int))
      | some [] => .error .valueError
      | some (x :: xs) => .ok (some (xs.foldl min x))) = _
    rw [hr, hmap]
  · rw [hmap]
    rfl
  · refine foldl_min_nonneg _ _ ?_ ?_
    · exact segment_residual_nonneg env (a, b)
        (hc0 _ (List.mem_cons_self _ _))
    · intro y hy
      obtain ⟨p, hp, rfl⟩ := List.mem_map.mp hy
      exact segment_residual_nonneg env p
        (hc0 p (List.mem_cons_of_mem _ hp))
  · intro m hm
    rw [hmapr] at hm
    have := foldl_min_mono (segment_residual env) (raw_capacity env)
      (pathPairs (b :: rest)) (segment_residual env (a, b))
      (raw_capacity env (a, b))
      (segment_residual_le_raw env (a, b)
        (hc0 _ (List.mem_cons_self _ _)) htx hrx)
      (fun q hq => segment_residual_le_raw env q
        (hc0 q (List.mem_cons_of_mem _ hq)) htx hrx)
    have hm2 : ((pathPairs (b :: rest)).map (raw_capacity env)).foldl min
        (raw_capacity env (a, b)) = m := Option.some.inj hm
    rw [← hm2]
    exact this

/-- Environment for the C3 witness: user devices `A`, `C` around router
`B`, link capacities 100 and 50, no live load. -/
def c3_env : ProviderEnv :=
  { out_edges := fun n =>
      if n = "A" then [("B", some 100)]
      else if n = "B" then [("A", some 100), ("C", some 50)]
      else if n = "C" then [("B", some 50)]
      else [],
    node_type := fun n => if n = "B" then "router" else "user",
    tx_load := fun _ _ => none,
    rx_load := fun _ _ => none,
    core_data :=
      { bridges := [("b1", "gA1", "gB1"), ("b2", "gB2", "gC1")],
        mappings := [("A", [("gA1", "eth0")]),
                     ("B", [("gB1", "eth0"), ("gB2", "eth1")]),
                     ("C", [("gC1", "eth0")])],
        valid := true } }

/-- Witness for C3 on the `A–B–C` topology with capacities 100 and 50:
the bottleneck cost is 50. -/
theorem claim_C3_witness :
    get_residual_bw_for_path c3_env ["A", "B", "C"] = .ok (some 50) := by
  obtain ⟨c, h1, h2, h3, h4⟩ := claim_C3_residual_cost_is_bottleneck_min
    c3_env "A" "B" ["C"] (by decide) (by decide)
    (by
      intro p hp c hc
      fin_cases hp <;> simp_all [get_link_capacity, c3_env] <;> omega)
    (fun n l v h => by cases h) (fun n l v h => by cases h)
  have h50 : minList ((pathPairs ["A", "B", "C"]).map
      (segment_residual c3_env)) = some 50 := by decide
  rw [h50] at h2
  rw [h1, Option.some.inj h2]

theorem dictLookup_dictInsert_self {κ ν : Type} [DecidableEq κ]
    (d : List (κ × ν)) (key : κ) (val : ν) :
    dictLookup key (dictInsert d key val) = some val := by
  unfold dictInsert
  by_cases hmem : d.any (fun kv => kv.1 = key)
  · rw [if_pos hmem]
    induction d with
    | nil => simp at hmem
    | cons hd tl ih =>
      by_cases hk : hd.1 = key
      · rw [List.map_cons, if_pos hk]
        show dictLookup key ((key, val) :: _) = some val
        simp [dictLookup]
      · rw [List.map_cons, if_neg hk]
        have hmem' : tl.any (fun kv => kv.1 = key) := by
          rcases List.any_eq_true.mp hmem with ⟨kv, hkv, he⟩
          rcases List.mem_cons.mp hkv with rfl | hkv2
          · exact absurd (of_decide_eq_true he) hk
          · exact List.any_eq_true.mpr ⟨kv, hkv2, he⟩
        rw [show hd = (hd.1, hd.2) from rfl]
        show (if key = hd.1 then some hd.2 else _) = some val
        rw [if_neg (show ¬key = hd.1 from fun h => hk h.symm)]
        exact ih hmem'
  · rw [if_neg hmem]
    induction d with
    | nil => simp [dictLookup]
    | cons hd tl ih =>
      have hk : ¬hd.1 = key := by
        intro h
        exact hmem (List.any_eq_true.mpr
          ⟨hd, List.mem_cons_self _ _, decide_eq_true h⟩)
      have hmem' : ¬tl.any (fun kv => kv.1 = key) := by
        intro h
        rcases List.any_eq_true.mp h with ⟨kv, hkv, he⟩
        exact hmem (List.any_eq_true.mpr ⟨kv, List.mem_cons_of_mem _ hkv, he⟩)
      rw [List.cons_append, show hd = (hd.1, hd.2) from rfl]
      show (if key = hd.1 then some hd.2 else _) = some val
      rw [if_neg (show ¬key = hd.1 from fun h => hk h.symm)]
      exact ih hmem'

theorem get_cost_inner_lookup_none (env : CostEnv) (src k : String) :
    ∀ (dsts : List String) (acc m : List (String × Int)),
      dictLookup k acc = none →
      (∀ dst ∈ dsts, env.from_object dst = k →
        ∀ v, get_residual_bw_for_path env.toProviderEnv
          (env.dev_to_dev_iterator src dst) ≠ .ok (some v)) →
      get_cost_inner env src dsts acc = .ok m →
      dictLookup k m = none := by
  intro dsts
  induction dsts with
  | nil =>
    intro acc m hacc _ hok
    cases hok
    exact hacc
  | cons dst rest ih =>
    intro acc m hacc hskip hok
    unfold get_cost_inner at hok
    cases hr : get_residual_bw_for_path env.toProviderEnv
        (env.dev_to_dev_iterator src dst) with
    | error e => rw [hr] at hok; cases hok
    | ok o =>
      rw [hr] at hok
      cases o with
      | none =>
        exact ih acc m hacc
          (fun d hd => hskip d (List.mem_cons_of_mem _ hd)) hok
      | some rbw =>
        by_cases hkey : env.from_object dst = k
        · exact absurd hr (hskip dst (List.mem_cons_self _ _) hkey rbw)
        · refine ih _ m ?_
            (fun d hd => hskip d (List.mem_cons_of_mem _ hd)) hok
          rw [dictInsert_dictLookup_ne _ _ _ _ (fun h => hkey h.symm)]
          exact hacc

theorem get_cost_inner_no_success (env : CostEnv) (src : String) :
    ∀ (dsts : List String) (acc m : List (String × Int)),
      (∀ dst ∈ dsts, ∀ v, get_residual_bw_for_path env.toProviderEnv
        (env.dev_to_dev_iterator src dst) ≠ .ok (some v)) →
      get_cost_inner env src dsts acc = .ok m →
      m = acc := by
  intro dsts
  induction dsts with
  | nil =>
    intro acc m _ hok
    cases hok
    rfl
  | cons dst rest ih =>
    intro acc m hskip hok
    unfold get_cost_inner at hok
    cases hr : get_residual_bw_for_path env.toProviderEnv
        (env.dev_to_dev_iterator src dst) with
    | error e => rw [hr] at hok; cases hok
    | ok o =>
      rw [hr] at hok
      cases o with
      | none =>
        exact ih acc m (fun d hd => hskip d (List.mem_cons_of_mem _ hd)) hok
      | some rbw =>
        exact absurd hr (hskip dst (List.mem_cons_self _ _) rbw)

theorem get_cost_outer_lookup (env : CostEnv) (dsts : List String)
    (k : String) :
    ∀ (srcs : List String) (cm out : List (String × List (String × Int))),
      get_cost_outer env dsts srcs cm = .ok out →
      ∀ inner, dictLookup k out = some inner →
        dictLookup k cm = some inner ∨
        ∃ src ∈ srcs, env.from_object src = k ∧
          get_cost_inner env src dsts [] = .ok inner ∧
          pyAnyDict inner = true := by
  intro srcs
  induction srcs with
  | nil =>
    intro cm out hok inner hl
    cases hok
    exact Or.inl hl
  | cons src rest ih =>
    intro cm out hok inner hl
    unfold get_cost_outer at hok
    cases hi : get_cost_inner env src dsts [] with
    | error e => rw [hi] at hok; cases hok
    | ok this_src =>
      simp only [hi] at hok
      by_cases hany : pyAnyDict this_src
      · rw [if_pos hany] at hok
        rcases ih _ out hok inner hl with hcm | ⟨s2, hs2, hk2, hin2, hany2⟩
        · by_cases hkey : k = env.from_object src
          · subst hkey
            rw [dictLookup_dictInsert_self] at hcm
            exact Or.inr ⟨src, List.mem_cons_self _ _, rfl,
              (Option.some.inj hcm) ▸ hi, (Option.some.inj hcm) ▸ hany⟩
          · rw [dictInsert_dictLookup_ne _ _ _ _ hkey] at hcm
            exact Or.inl hcm
        · exact Or.inr ⟨s2, List.mem_cons_of_mem _ hs2, hk2, hin2, hany2⟩
      · rw [if_neg hany] at hok
        rcases ih cm out hok inner hl with hcm | ⟨s2, hs2, hk2, hin2, hany2⟩
        · exact Or.inl hcm
        · exact Or.inr ⟨s2, List.mem_cons_of_mem _ hs2, hk2, hin2, hany2⟩

/-- C7: best-effort omission in the residual-bandwidth provider.  Assuming
endpoint formatting is injective, whenever `get_cost` succeeds: a
(src, dst) pair whose path yields no residual bandwidth (unknown capacity
or adapters, `None`) produces no entry under that destination in the
source's inner mapping; and a source none of whose destinations yields a
residual bandwidth is absent from the outer mapping entirely. -/
theorem claim_C7_unresolvable_pairs_omitted (env : CostEnv)
    (in_srcs in_dsts : List String)
    (cm : List (String × List (String × Int))) (s d : String)
    (hinj : Function.Injective env.from_object)
    (hok : get_cost env in_srcs in_dsts = .ok cm)
    (hs : s ∈ in_srcs.map env.to_object) :
    ((d ∈ in_dsts.map env.to_object) →
      get_residual_bw_for_path env.toProviderEnv
        (env.dev_to_dev_iterator s d) = .ok none →
      ∀ inner, dictLookup (env.from_object s) cm = some inner →
        dictLookup (env.from_object d) inner = none) ∧
    ((∀ d' ∈ in_dsts.map env.to_object, ∀ v,
        get_residual_bw_for_path env.toProviderEnv
          (env.dev_to_dev_iterator s d') ≠ .ok (some v)) →
      dictLookup (env.from_object s) cm = none) := by
  constructor
  · intro _ hnone inner hlook
    rcases get_cost_outer_lookup env (in_dsts.map env.to_object)
        (env.from_object s) (in_srcs.map env.to_object) [] cm hok inner
        hlook with hcm | ⟨s2, _, hk2, hin2, _⟩
    · cases hcm
    · have hseq : s2 = s := hinj hk2
      subst hseq
      refine get_cost_inner_lookup_none env s2 (env.from_object d)
        (in_dsts.map env.to_object) [] inner rfl ?_ hin2
      intro dst _ hkd v heq
      have hdd : dst = d := hinj hkd
      rw [hdd, hnone] at heq
      simp at heq
  · intro hall
    cases hlook : dictLookup (env.from_object s) cm with
    | none => rfl
    | some inner =>
      exfalso
      rcases get_cost_outer_lookup env (in_dsts.map env.to_object)
          (env.from_object s) (in_srcs.map env.to_object) [] cm hok inner
          hlook with hcm | ⟨s2, _, hk2, hin2, hany2⟩
      · cases hcm
      · have hseq : s2 = s := hinj hk2
        subst hseq
        have hempty : inner = [] := get_cost_inner_no_success env s2
          (in_dsts.map env.to_object) [] inner hall hin2
        rw [hempty] at hany2
        cases hany2

/-- Environment for the C7 witness: a two-device path with no edges, so
every segment's capacity is unknown and every pair is skipped. -/
def c7_env : CostEnv :=
  { out_edges := fun _ => [], node_type := fun _ => "router",
    tx_load := fun _ _ => none, rx_load := fun _ _ => none,
    core_data := { bridges := [], mappings := [], valid := false },
    to_object := fun a => a, from_object := fun a => a,
    dev_to_dev_iterator := fun _ _ => ["S", "D"] }

/-- Witness for C7: with the single source `S` and destination `D` and an
unknown-capacity segment, the cost map omits `S` entirely. -/
theorem claim_C7_witness :
    dictLookup "S" ([] : List (String × List (String × Int))) = none := by
  have h := claim_C7_unresolvable_pairs_omitted c7_env ["S"] ["D"] [] "S" "D"
    (fun a b hh => hh) (by decide) (by decide)
  refine h.2 ?_
  intro d' hd' v heq
  have hd2 : d' = "D" := by simpa using hd'
  rw [hd2] at heq
  have hres : get_residual_bw_for_path c7_env.toProviderEnv
      (c7_env.dev_to_dev_iterator "S" "D") = .ok none := by decide
  rw [hres] at heq
  simp at heq
